/-
Verification of `update_docker_image.py`: a shallow embedding in Lean 4 of the
script's extraction, merge, push-stream and cleanup logic, together with
theorems settling the specified properties.

Conventions of the embedding:
* Python strings are `List Char`; byte payloads are `List Nat`.
* Filesystem paths under a root are lists of path segments (`List String`).
* Filesystem state is explicit: association lists from paths to contents.
* Fallible I/O is modelled with `Except Exc`; a Python `try/except Exception`
  block that returns `False` on any exception is the function `runBody`.
-/
import Mathlib

set_option autoImplicit false

namespace DockerUpdate

/-! ## Path rewriting in `extract_models_from_image`

The source computes `parts = orig_path.split("/", 1)`; if a remainder exists
it becomes the rewritten relative path, otherwise the entry is the archive
root and maps to the empty path (lines 124-133). `splitFirst` embeds
Python's `split("/", 1)`: it returns the part before the first slash and the
remainder, or `none` when the string has no slash. -/

def splitFirst : List Char → Option (List Char × List Char)
  | [] => none
  | c :: cs =>
    if c = '/' then some ([], cs)
    else
      match splitFirst cs with
      | none => none
      | some (a, b) => some (c :: a, b)

/-- `new_path` of lines 127-133: everything after the first slash, or the
empty path when the entry name has no slash. -/
def rewritePath (p : List Char) : List Char :=
  match splitFirst p with
  | some (_, rest) => rest
  | none => []

/-! ## Tar members and the extraction loop -/

/-- A tar archive member: its slash-separated name, whether it is a
directory, and, when `tar.extractfile` would yield a stream, its bytes
(`none` models both directories and members with no extractable file). -/
structure TarMember where
  name : List Char
  isdir : Bool
  content : Option (List Nat)
deriving DecidableEq

/-- The files written by the member loop of lines 124-152: directory members
are skipped, members with no extractable file object are skipped, and each
remaining member is written at its rewritten path. -/
def memberWrites (ms : List TarMember) : List (List Char × List Nat) :=
  ms.filterMap fun m =>
    if m.isdir then none
    else m.content.map fun c => (rewritePath m.name, c)

/-- Local filesystem effects of `extract_models_from_image`, in order. -/
inductive ExtractEffect where
  | makeOutputDir
  | writeFile (p : List Char) (c : List Nat)
  | removeContainer
deriving DecidableEq

/-- The exception-free behaviour of `extract_models_from_image` once the tar
archive has been decoded into `ms` (lines 109-161): the output directory is
created first (line 110); an empty member list then removes the container and
fails (lines 116-119); otherwise every file member is written at its
rewritten path and the container is removed, succeeding. Returns the ordered
effect trace and the boolean result. -/
def extract_models_from_image (ms : List TarMember) : List ExtractEffect × Bool :=
  if ms.isEmpty then
    ([ExtractEffect.makeOutputDir, ExtractEffect.removeContainer], false)
  else
    (ExtractEffect.makeOutputDir ::
      ((memberWrites ms).map fun pc => ExtractEffect.writeFile pc.1 pc.2) ++
      [ExtractEffect.removeContainer], true)

/-! ## The push event loop of `push_docker_image` -/

/-- A decoded push event: each field is present or absent, as with the JSON
dictionaries the runtime streams. -/
structure PushEvent where
  status : Option String
  id : Option String
  progress : Option String
  error : Option String
deriving DecidableEq

/-- The line printed for an event by the first two branches of lines 350-355,
or `none` when the event reaches neither branch. -/
def renderLine (e : PushEvent) : Option String :=
  match e.status with
  | some s =>
    match e.id with
    | some i =>
      some (i ++ ": " ++ s ++ (match e.progress with
        | some p => " " ++ p
        | none => ""))
    | none => some s
  | none => none

/-- The line printed by the error branch of line 358. -/
def errorLine (e : PushEvent) : String :=
  "Error: " ++ e.error.getD ""

/-- Result of consuming the push event stream: the printed lines, the final
`success` flag, and how many events were consumed before stopping. -/
structure PushResult where
  printed : List String
  success : Bool
  consumed : Nat
deriving DecidableEq

/-- The event loop of lines 348-360: an event with `status` and `id` prints
an id-prefixed line; an event with only `status` prints it plainly; an event
with neither `status` nor the earlier fields but with `error` prints the
error, sets `success` to false and breaks; any other event is skipped. -/
def pushLoop : List PushEvent → PushResult
  | [] => { printed := [], success := true, consumed := 0 }
  | e :: rest =>
    match renderLine e with
    | some line =>
      let r := pushLoop rest
      { printed := line :: r.printed, success := r.success,
        consumed := r.consumed + 1 }
    | none =>
      match e.error with
      | some _ =>
        { printed := [errorLine e], success := false, consumed := 1 }
      | none =>
        let r := pushLoop rest
        { printed := r.printed, success := r.success,
          consumed := r.consumed + 1 }

/-! ## The staging merge of `move_new_models_to_models`

Paths relative to a tree root are segment lists; a tree's files are an
association list from relative path to content. The walk input mirrors what
`os.walk(new_models_dir)` yields: for each visited directory, its path
relative to the staging root (`[]` for the root itself, where the source
compares `rel_path` with `"."`) and the file names directly inside it. -/

abbrev Path : Type := List String

/-- First-match lookup in a path-keyed association list. -/
def lookupP : List (Path × String) → Path → Option String
  | [], _ => none
  | (q, c) :: rest, p => if q = p then some c else lookupP rest p

/-- Remove a path's entry (models `os.remove`). -/
def eraseP : List (Path × String) → Path → List (Path × String)
  | [], _ => []
  | qc :: rest, p => if qc.1 = p then eraseP rest p else qc :: eraseP rest p

/-- Create-or-truncate write of `c` at `p` (models `shutil.copy2`'s effect on
the destination). -/
def insertP (l : List (Path × String)) (p : Path) (c : String) : List (Path × String) :=
  (p, c) :: eraseP l p

/-- `os.makedirs(..., exist_ok=True)`: all nonempty prefixes of `d` come to
exist as directories. -/
def addDirs (l : List Path) (d : Path) : List Path :=
  l ++ ((List.range d.length).map fun i => d.take (i + 1)).filter fun q => ¬ q ∈ l

/-- The two local trees the merge touches, with their file maps and their
directory sets (paths relative to each root). -/
structure FsState where
  staging : List (Path × String)
  stagingDirs : List Path
  target : List (Path × String)
  targetDirs : List Path
deriving DecidableEq

/-- The body of the inner file loop, lines 219-232, for source file `src`
(its staging-relative path; the mirrored target path is the same relative
path): record whether the target already exists, copy the staged bytes over
the target, then remove the staged file. Returns `none` when the staged file
is missing, where `shutil.copy2` would raise. The returned list holds the
intermediate states, one after the copy and one after the removal. -/
def moveFile (st : FsState) (src : Path) : Option (FsState × Bool × List FsState) :=
  match lookupP st.staging src with
  | none => none
  | some c =>
    let over := (lookupP st.target src).isSome
    let st1 : FsState := { st with target := insertP st.target src c }
    let st2 : FsState := { st1 with staging := eraseP st1.staging src }
    some (st2, over, [st1, st2])

/-- The file loop of one walk step: moves each file of directory `d`, summing
the moved and overwritten counters. -/
def processFiles (st : FsState) (d : Path) : List String → Option (FsState × Nat × Nat × List FsState)
  | [] => some (st, 0, 0, [])
  | f :: fs =>
    match moveFile st (d ++ [f]) with
    | none => none
    | some (st1, over, tr1) =>
      match processFiles st1 d fs with
      | none => none
      | some (st2, mv, ov, tr2) =>
        some (st2, mv + 1, (if over then 1 else 0) + ov, tr1 ++ tr2)

/-- Lines 212-216: when the visited directory is not the staging root
itself, ensure the mirrored directory exists under the target root. -/
def mkTargetDirs (st : FsState) (d : Path) : FsState :=
  if d = [] then st else { st with targetDirs := addDirs st.targetDirs d }

/-- The walk loop of lines 206-237: for each visited directory, mirror it
under the target root when it is not the staging root itself (lines 212-216),
then move its files. -/
def processWalk (st : FsState) : List (Path × List String) → Option (FsState × Nat × Nat × List FsState)
  | [] => some (st, 0, 0, [])
  | (d, fs) :: rest =>
    match processFiles (mkTargetDirs st d) d fs with
    | none => none
    | some (st1, mv1, ov1, tr1) =>
      match processWalk st1 rest with
      | none => none
      | some (st2, mv2, ov2, tr2) =>
        some (st2, mv1 + mv2, ov1 + ov2, (mkTargetDirs st d :: tr1) ++ tr2)

/-- `move_new_models_to_models` (lines 177-263), exception-free paths: fails
straight away when the staging directory does not exist (lines 193-195);
otherwise runs the walk. A `none` from the walk is a raised exception, caught
at lines 255-263 and turned into `false`. Returns (success, final state,
files moved, files overwritten, intermediate states). -/
def move_new_models_to_models (stagingExists : Bool) (st : FsState)
    (w : List (Path × List String)) : Bool × FsState × Nat × Nat × List FsState :=
  if stagingExists = false then (false, st, 0, 0, [])
  else
    match processWalk st w with
    | some (st1, mv, ov, tr) => (true, st1, mv, ov, tr)
    | none => (false, st, 0, 0, [])

/-- The staging-relative paths of all files the walk reports. -/
def walkFiles (w : List (Path × List String)) : List Path :=
  w.flatMap fun dfs => dfs.2.map fun f => dfs.1 ++ [f]

/-- The key set of a file map. -/
def keysOf (l : List (Path × String)) : List Path :=
  l.map Prod.fst

/-! ## The cleanup walk of `cleanup_model_files`

A directory is its list of file names plus its subdirectories. The walk of
lines 399-417 is bottom-up (`topdown=False`): subdirectories are fully
processed before their parent's files are removed and its own `os.rmdir` is
attempted; `os.rmdir` fails exactly when the directory is still non-empty,
and that failure is swallowed (lines 415-417). -/

inductive DirTree where
  | node (files : List String) (subs : List DirTree)

mutual

/-- Process one non-root directory: clean its subtree, remove its files, then
attempt `os.rmdir`. Returns the directory if the removal failed (it was still
non-empty), `none` if it was removed, plus files removed and rmdir failures. -/
def cleanSub : DirTree → Option DirTree × Nat × Nat
  | DirTree.node files subs =>
    let r := cleanSubs subs
    if r.1.isEmpty then (none, r.2.1 + files.length, r.2.2)
    else (some (DirTree.node [] r.1), r.2.1 + files.length, r.2.2 + 1)

/-- Process a list of sibling subdirectories, keeping those whose removal
failed. -/
def cleanSubs : List DirTree → List DirTree × Nat × Nat
  | [] => ([], 0, 0)
  | t :: ts =>
    let r := cleanSub t
    let rs := cleanSubs ts
    (match r.1 with
     | none => rs.1
     | some t1 => t1 :: rs.1, r.2.1 + rs.2.1, r.2.2 + rs.2.2)

end

/-- Outcome of `cleanup_model_files`: the directory tree afterwards (`none`
when the target directory did not exist to begin with), files removed, rmdir
failures swallowed, and the returned boolean. -/
structure CleanupResult where
  tree : Option DirTree
  filesRemoved : Nat
  rmdirFailures : Nat
  success : Bool

/-- `cleanup_model_files` (lines 380-436), exception-free paths: a missing
directory fails at once (lines 392-394); otherwise the bottom-up walk removes
every file, removes emptied subdirectories, and never attempts to remove the
root itself (guard `root != models_dir`, line 408). -/
def cleanup_model_files : Option DirTree → CleanupResult
  | none => { tree := none, filesRemoved := 0, rmdirFailures := 0, success := false }
  | some (DirTree.node files subs) =>
    let r := cleanSubs subs
    { tree := some (DirTree.node [] r.1),
      filesRemoved := r.2.1 + files.length,
      rmdirFailures := r.2.2,
      success := true }

mutual

/-- Total number of files anywhere in a tree. -/
def totalFiles : DirTree → Nat
  | DirTree.node files subs => totalSubFiles subs + files.length

/-- Total number of files in a list of trees. -/
def totalSubFiles : List DirTree → Nat
  | [] => 0
  | t :: ts => totalFiles t + totalSubFiles ts

end

/-! ## Exception behaviour of the six component functions

Each component wraps its body in `try/except` arms that all end in
`return False`; the arms together catch every `Exception` subclass, so any
exception raised inside the guarded body yields `False`. Code that runs
before the `try` block is NOT guarded: `docker.from_env()` in
`pull_docker_image` (line 33), `extract_models_from_image` (line 92),
`build_docker_image` (line 279) and `push_docker_image` (line 338), and the
existence check plus `os.makedirs(models_dir, ...)` in
`move_new_models_to_models` (lines 193-198). Each external call's outcome is
an oracle supplied by the environment. -/

/-- Exception categories raised by the runtime API and the filesystem (all
`Exception` subclasses in the source's sense). -/
inductive Exc where
  | apiError
  | notFound
  | imageNotFound
  | buildError
  | tarError
  | permissionError
  | osError
  | other
deriving DecidableEq

/-- The `try/except` shell shared by every component: all handler arms print
and `return False`, so any exception from the body collapses to `false`. -/
def runBody (body : Except Exc Bool) : Bool :=
  match body with
  | Except.ok b => b
  | Except.error _ => false

/-- The tag-verification of lines 56-59 and 301-304:
`any(image_name in img.tags for img in images if img.tags)`. -/
def imageFound (name : String) (images : List (List String)) : Bool :=
  images.any fun tags => ¬ tags.isEmpty ∧ name ∈ tags

/-- Oracles for `pull_docker_image`'s external calls. -/
structure PullEnv where
  fromEnv : Except Exc Unit
  pullEvents : Except Exc (List PushEvent)
  listImages : Except Exc (List (List String))

/-- `pull_docker_image` (lines 22-76) at the exception level: client
initialization runs unguarded; the guarded body drains the progress stream,
lists images and succeeds iff the reference appears in some tag set. -/
def pull_docker_image (name : String) (env : PullEnv) : Except Exc Bool := do
  let _ ← env.fromEnv
  pure (runBody (do
    let _ ← env.pullEvents
    let images ← env.listImages
    pure (imageFound name images)))

/-- Oracles for `extract_models_from_image`'s external calls. `writeOutcome`
is the outcome of writing one extracted file. -/
structure ExtractEnv where
  fromEnv : Except Exc Unit
  createContainer : Except Exc Unit
  getArchive : Except Exc Unit
  makedirsOutput : Except Exc Unit
  tarOpen : Except Exc (List TarMember)
  writeOutcome : List Char → List Nat → Except Exc Unit
  removeContainer : Except Exc Unit

/-- `extract_models_from_image` (lines 79-174) at the exception level: client
initialization runs unguarded; everything from container creation on is
guarded and collapses to `false` on any exception. -/
def extract_exceptions (env : ExtractEnv) : Except Exc Bool := do
  let _ ← env.fromEnv
  pure (runBody (do
    let _ ← env.createContainer
    let _ ← env.getArchive
    let _ ← env.makedirsOutput
    let ms ← env.tarOpen
    if ms.isEmpty then do
      let _ ← env.removeContainer
      pure false
    else do
      let _ ← (memberWrites ms).forM fun pc => env.writeOutcome pc.1 pc.2
      let _ ← env.removeContainer
      pure true))

/-- Oracles for `move_new_models_to_models`'s external calls. The walk data
and initial state feed the pure model; each filesystem operation of the
guarded body can instead raise via `stepOutcome` (indexed by the
staging-relative path being moved). -/
structure MoveEnv where
  stagingExists : Bool
  makedirsModels : Except Exc Unit
  st : FsState
  walk : List (Path × List String)
  stepOutcome : Path → Except Exc Unit

/-- `move_new_models_to_models` (lines 177-263) at the exception level: the
existence check and `os.makedirs(models_dir, exist_ok=True)` (line 198) run
before the `try` of line 204, so an exception from that `makedirs`
propagates to the caller; the walk itself is guarded. -/
def move_exceptions (env : MoveEnv) : Except Exc Bool := do
  if env.stagingExists = false then pure false
  else do
    let _ ← env.makedirsModels
    pure (runBody (do
      let _ ← (walkFiles env.walk).forM fun p => env.stepOutcome p
      pure (move_new_models_to_models true env.st env.walk).1))

/-- Oracles for `build_docker_image`'s external calls. -/
structure BuildEnv where
  fromEnv : Except Exc Unit
  buildCall : Except Exc (List String)
  listImages : Except Exc (List (List String))

/-- `build_docker_image` (lines 266-324) at the exception level: client
initialization runs unguarded; the guarded body builds, drains the log
stream and succeeds iff the tag appears in some image's tag set. -/
def build_docker_image (name : String) (env : BuildEnv) : Except Exc Bool := do
  let _ ← env.fromEnv
  pure (runBody (do
    let _ ← env.buildCall
    let images ← env.listImages
    pure (imageFound name images)))

/-- Oracles for `push_docker_image`'s external calls. -/
structure PushEnv where
  fromEnv : Except Exc Unit
  getImage : Except Exc Unit
  tagImage : Except Exc Unit
  pushStream : Except Exc (List PushEvent)

/-- `push_docker_image` (lines 327-377) at the exception level: client
initialization runs unguarded; the guarded body resolves and tags the image,
then consumes the push stream through `pushLoop`. -/
def push_exceptions (env : PushEnv) : Except Exc Bool := do
  let _ ← env.fromEnv
  pure (runBody (do
    let _ ← env.getImage
    let _ ← env.tagImage
    let evs ← env.pushStream
    pure (pushLoop evs).success))

/-- Oracles for `cleanup_model_files`'s external calls. -/
structure CleanupEnv where
  dir : Option DirTree
  walkOutcome : Except Exc Unit

/-- `cleanup_model_files` (lines 380-436) at the exception level: the
existence check (line 392) runs before the `try` of line 397 but cannot
raise; the walk with its removals is guarded, collapsing to `false` on any
exception. -/
def cleanup_exceptions (env : CleanupEnv) : Except Exc Bool :=
  match env.dir with
  | none => Except.ok false
  | some t =>
    Except.ok (runBody (do
      let _ ← env.walkOutcome
      pure (cleanup_model_files (some t)).success))

/-! ## Lemmas on path splitting -/

lemma splitFirst_no_slash {root : List Char} (h : ¬ '/' ∈ root) :
    splitFirst root = none := by
  induction root with
  | nil => rfl
  | cons c cs ih =>
    have hc : ¬ c = '/' := fun hc => h (hc ▸ List.mem_cons_self c cs)
    have hcs : ¬ '/' ∈ cs := fun hm => h (List.mem_cons_of_mem c hm)
    simp only [splitFirst]
    rw [if_neg (fun hcc => hc hcc), ih hcs]

lemma splitFirst_append {root rest : List Char} (h : ¬ '/' ∈ root) :
    splitFirst (root ++ '/' :: rest) = some (root, rest) := by
  induction root with
  | nil => simp [splitFirst]
  | cons c cs ih =>
    have hc : ¬ c = '/' := fun hc => h (hc ▸ List.mem_cons_self c cs)
    have hcs : ¬ '/' ∈ cs := fun hm => h (List.mem_cons_of_mem c hm)
    simp only [List.cons_append, splitFirst, List.append_eq]
    rw [if_neg (fun hcc => hc hcc), ih hcs]

/-- C1: for entries under a single root segment, the rewritten-path
computation strips exactly the first slash-separated segment, and maps the
root entry itself (no slash in its name) to the empty relative path. -/
theorem rewrite_path_strips_first_segment (root rest : List Char)
    (h : ¬ '/' ∈ root) :
    rewritePath (root ++ '/' :: rest) = rest ∧ rewritePath root = [] := by
  constructor
  · rw [rewritePath, splitFirst_append h]
  · rw [rewritePath, splitFirst_no_slash h]

/-- C1 witness: concrete root segment and remainder. -/
theorem rewrite_path_strips_first_segment_witness :
    rewritePath ("models/a/b.glb".toList) = "a/b.glb".toList ∧
      rewritePath ("models".toList) = [] := by
  have h : ¬ '/' ∈ "models".toList := by decide
  have hsplit : "models/a/b.glb".toList = "models".toList ++ '/' :: "a/b.glb".toList := by
    decide
  have hmain := rewrite_path_strips_first_segment "models".toList "a/b.glb".toList h
  exact ⟨by rw [hsplit]; exact hmain.1, hmain.2⟩

/-- C10: on the empty-archive failure path, `extract_models_from_image`
returns `false`, yet its effect trace already contains the creation of the
local output directory (and no file writes): the failure is not atomic with
respect to the local filesystem. -/
theorem extract_empty_archive_creates_output_dir :
    extract_models_from_image [] =
      ([ExtractEffect.makeOutputDir, ExtractEffect.removeContainer], false) := by
  rfl

/-- C3 counterexample: an archive with exactly one directory-kind entry and
no file-kind entries makes `extract_models_from_image` return `true`, not
`false`: `members` is non-empty, so the no-files branch is not taken. -/
theorem extract_single_dir_returns_true :
    ((([⟨"models".toList, true, none⟩] : List TarMember).countP
        fun m => m.isdir) = 1) ∧
    ((([⟨"models".toList, true, none⟩] : List TarMember).countP
        fun m => ¬ m.isdir) = 0) ∧
    (extract_models_from_image [⟨"models".toList, true, none⟩]).2 = true := by
  refine ⟨by decide, by decide, ?_⟩
  rfl

/-- C3 amended: for every non-empty archive all of whose entries are
directory-kind, `extract_models_from_image` returns `true` and writes no
files; `false` is returned only for an archive with zero members. -/
theorem extract_dir_only_succeeds_without_writes (ms : List TarMember)
    (h1 : ms ≠ []) (h2 : ∀ m ∈ ms, m.isdir = true) :
    (extract_models_from_image ms).2 = true ∧ memberWrites ms = [] := by
  constructor
  · rw [extract_models_from_image, if_neg (by simpa using h1)]
  · rw [memberWrites, List.filterMap_eq_nil_iff]
    intro m hm
    rw [if_pos (h2 m hm)]

/-- C3 amended, witness: a concrete directory-only archive. -/
theorem extract_dir_only_succeeds_without_writes_witness :
    (extract_models_from_image [⟨"html".toList, true, none⟩]).2 = true ∧
      memberWrites [⟨"html".toList, true, none⟩] = [] :=
  extract_dir_only_succeeds_without_writes [⟨"html".toList, true, none⟩]
    (by decide) (by decide)

/-! ## Lemmas on the push event loop -/

lemma renderLine_eq_none_iff (e : PushEvent) :
    renderLine e = none ↔ e.status = none := by
  cases hs : e.status with
  | none => simp [renderLine, hs]
  | some s =>
    cases hi : e.id with
    | none => simp [renderLine, hs, hi]
    | some i => simp [renderLine, hs, hi]

/-- C2 counterexample: in the stream `[e1, e2]` the first event carrying an
`error` field is at position 2 (`e1` has no `error`), yet the loop prints the
error event itself via its `status` branch, never sets `success` to false,
consumes both events and the function would return `true` — and none of the
1 preceding events is printed. The claim demands `false` and exactly 1
preceding event printed. -/
theorem push_error_with_status_not_a_failure :
    (PushEvent.mk none none none none).error = none ∧
    (PushEvent.mk (some "s") none none (some "boom")).error = some "boom" ∧
    pushLoop [PushEvent.mk none none none none,
        PushEvent.mk (some "s") none none (some "boom")] =
      { printed := ["s"], success := true, consumed := 2 } := by
  refine ⟨rfl, rfl, ?_⟩
  rfl

/-- C2 amended: if the event at position `k` is the first event that carries
an `error` field but no `status` field (an event carrying both takes the
status branch and does not stop the loop), then of the `k - 1` preceding
events exactly those carrying a `status` field are printed, the error is
printed, the function's success flag becomes false, and consumption stops at
position `k`: no later event is processed. -/
theorem push_error_event_stops_stream (pre post : List PushEvent) (e : PushEvent)
    (hstat : e.status = none) (herr : e.error.isSome = true)
    (hpre : ∀ x ∈ pre, x.status.isSome = true ∨ x.error = none) :
    pushLoop (pre ++ e :: post) =
      { printed := pre.filterMap renderLine ++ [errorLine e],
        success := false,
        consumed := pre.length + 1 } := by
  induction pre with
  | nil =>
    obtain ⟨v, hv⟩ := Option.isSome_iff_exists.mp herr
    have hre : renderLine e = none := (renderLine_eq_none_iff e).mpr hstat
    simp only [List.nil_append, pushLoop, hre, hv, List.filterMap_nil,
      List.length_nil]
  | cons x pre ih =>
    have hx := hpre x (List.mem_cons_self x pre)
    have ihp : ∀ y ∈ pre, y.status.isSome = true ∨ y.error = none :=
      fun y hy => hpre y (List.mem_cons_of_mem x hy)
    rcases hx with hs | he
    · obtain ⟨s, hs⟩ := Option.isSome_iff_exists.mp hs
      have hrx : ∃ line, renderLine x = some line := by
        cases hi : x.id with
        | none => exact ⟨s, by simp [renderLine, hs, hi]⟩
        | some i =>
          exact ⟨i ++ ": " ++ s ++ (match x.progress with
            | some p => " " ++ p
            | none => ""), by simp [renderLine, hs, hi]⟩
      obtain ⟨line, hrx⟩ := hrx
      simp only [List.cons_append, pushLoop, hrx, List.append_eq, ih ihp,
        List.filterMap_cons, List.length_cons]
    · cases hrx : renderLine x with
      | some line =>
        simp only [List.cons_append, pushLoop, hrx, List.append_eq, ih ihp,
          List.filterMap_cons, List.length_cons]
      | none =>
        have hxs : x.status = none := (renderLine_eq_none_iff x).mp hrx
        simp only [List.cons_append, pushLoop, hrx, he, List.append_eq, ih ihp,
          List.filterMap_cons, List.length_cons]

/-- C2 amended, witness: a status-carrying event and a field-less event
precede the error event; one trailing event is never consumed. -/
theorem push_error_event_stops_stream_witness :
    pushLoop [PushEvent.mk (some "Pushing") (some "layer1") (some "10%") none,
        PushEvent.mk none none none none,
        PushEvent.mk none none none (some "denied"),
        PushEvent.mk (some "later") none none none] =
      { printed := ["layer1: Pushing 10%", "Error: denied"],
        success := false,
        consumed := 3 } := by
  have h := push_error_event_stops_stream
    [PushEvent.mk (some "Pushing") (some "layer1") (some "10%") none,
      PushEvent.mk none none none none]
    [PushEvent.mk (some "later") none none none]
    (PushEvent.mk none none none (some "denied"))
    rfl rfl (by decide)
  simpa [renderLine, errorLine] using h

/-! ## Exception propagation across component boundaries -/

/-- C6 counterexample: exceptions raised before each `try` block escape.
When `os.makedirs(models_dir, exist_ok=True)` (line 198, before the `try` of
line 204) raises an `OSError`, `move_new_models_to_models` propagates it to
its caller instead of returning a boolean; likewise `docker.from_env()`
(line 33, before the `try` of line 37) propagates an API error out of
`pull_docker_image`. -/
theorem component_exception_escapes :
    move_exceptions
      { stagingExists := true,
        makedirsModels := Except.error Exc.osError,
        st := { staging := [], stagingDirs := [], target := [], targetDirs := [] },
        walk := [],
        stepOutcome := fun _ => Except.ok () } = Except.error Exc.osError ∧
    pull_docker_image "img"
      { fromEnv := Except.error Exc.apiError,
        pullEvents := Except.ok [],
        listImages := Except.ok [] } = Except.error Exc.apiError := by
  exact ⟨rfl, rfl⟩

/-- C6 amended: each component function returns a boolean and propagates no
exception, provided its unguarded prefix (the code before its `try` block:
client initialization in pull/extract/build/push, and the target-directory
`makedirs` in move) does not itself raise; every exception raised inside a
`try` block is caught and converted to `false`. -/
theorem components_never_raise_past_prefix
    (name bname : String) (pEnv : PullEnv) (eEnv : ExtractEnv) (mEnv : MoveEnv)
    (bEnv : BuildEnv) (puEnv : PushEnv) (cEnv : CleanupEnv)
    (hp : pEnv.fromEnv = Except.ok ()) (he : eEnv.fromEnv = Except.ok ())
    (hm : mEnv.stagingExists = false ∨ mEnv.makedirsModels = Except.ok ())
    (hb : bEnv.fromEnv = Except.ok ()) (hpu : puEnv.fromEnv = Except.ok ()) :
    (∃ b, pull_docker_image name pEnv = Except.ok b) ∧
    (∃ b, extract_exceptions eEnv = Except.ok b) ∧
    (∃ b, move_exceptions mEnv = Except.ok b) ∧
    (∃ b, build_docker_image bname bEnv = Except.ok b) ∧
    (∃ b, push_exceptions puEnv = Except.ok b) ∧
    (∃ b, cleanup_exceptions cEnv = Except.ok b) := by
  refine ⟨?_, ?_, ?_, ?_, ?_, ?_⟩
  · exact ⟨_, by rw [pull_docker_image, hp]; rfl⟩
  · exact ⟨_, by rw [extract_exceptions, he]; rfl⟩
  · rcases hm with hse | hmk
    · exact ⟨false, by rw [move_exceptions, if_pos hse]; rfl⟩
    · by_cases hse : mEnv.stagingExists = false
      · exact ⟨false, by rw [move_exceptions, if_pos hse]; rfl⟩
      · exact ⟨_, by rw [move_exceptions, if_neg hse, hmk]; rfl⟩
  · exact ⟨_, by rw [build_docker_image, hb]; rfl⟩
  · exact ⟨_, by rw [push_exceptions, hpu]; rfl⟩
  · cases hd : cEnv.dir with
    | none => exact ⟨false, by rw [cleanup_exceptions, hd]⟩
    | some t => exact ⟨_, by rw [cleanup_exceptions, hd]⟩

/-- C6 amended, witness: concrete environments whose unguarded prefixes
succeed, including bodies that raise (all caught). -/
theorem components_never_raise_past_prefix_witness :
    (∃ b, pull_docker_image "a"
      { fromEnv := Except.ok (), pullEvents := Except.error Exc.apiError,
        listImages := Except.ok [] } = Except.ok b) ∧
    (∃ b, extract_exceptions
      { fromEnv := Except.ok (), createContainer := Except.ok (),
        getArchive := Except.ok (), makedirsOutput := Except.ok (),
        tarOpen := Except.error Exc.tarError,
        writeOutcome := fun _ _ => Except.ok (),
        removeContainer := Except.ok () } = Except.ok b) ∧
    (∃ b, move_exceptions
      { stagingExists := true, makedirsModels := Except.ok (),
        st := { staging := [], stagingDirs := [], target := [], targetDirs := [] },
        walk := [], stepOutcome := fun _ => Except.error Exc.permissionError }
        = Except.ok b) ∧
    (∃ b, build_docker_image "b"
      { fromEnv := Except.ok (), buildCall := Except.error Exc.buildError,
        listImages := Except.ok [] } = Except.ok b) ∧
    (∃ b, push_exceptions
      { fromEnv := Except.ok (), getImage := Except.error Exc.imageNotFound,
        tagImage := Except.ok (), pushStream := Except.ok [] } = Except.ok b) ∧
    (∃ b, cleanup_exceptions
      { dir := some (DirTree.node ["f"] []), walkOutcome := Except.error Exc.osError }
        = Except.ok b) :=
  components_never_raise_past_prefix "a" "b" _ _ _ _ _ _
    rfl rfl (Or.inr rfl) rfl rfl

/-! ## Lemmas on the filesystem maps -/

lemma lookupP_eraseP (l : List (Path × String)) (p q : Path) :
    lookupP (eraseP l p) q = if q = p then none else lookupP l q := by
  induction l with
  | nil => simp [eraseP, lookupP]
  | cons a rest ih =>
    rw [eraseP]
    by_cases hap : a.1 = p
    · rw [if_pos hap, ih]
      by_cases hqp : q = p
      · simp [hqp]
      · have haq : ¬ a.1 = q := fun h => hqp (h ▸ hap)
        simp [hqp, lookupP, haq]
    · rw [if_neg hap]
      simp only [lookupP, ih]
      by_cases haq : a.1 = q
      · have hqp : ¬ q = p := fun h => hap ((haq.trans h))
        simp [haq, hqp]
      · simp [haq]

lemma lookupP_insertP (l : List (Path × String)) (p q : Path) (c : String) :
    lookupP (insertP l p c) q = if q = p then some c else lookupP l q := by
  rw [insertP, lookupP]
  by_cases hpq : p = q
  · simp [hpq]
  · have hqp : ¬ q = p := fun h => hpq h.symm
    rw [if_neg hpq, if_neg hqp, lookupP_eraseP, if_neg hqp]

lemma lookupP_eq_none_iff (l : List (Path × String)) (p : Path) :
    lookupP l p = none ↔ ¬ p ∈ keysOf l := by
  induction l with
  | nil => simp [lookupP, keysOf]
  | cons a rest ih =>
    rw [lookupP, keysOf, List.map_cons]
    by_cases hap : a.1 = p
    · simp [hap]
    · have hpa : ¬ p = a.1 := fun h => hap h.symm
      simp [hap, hpa, ih, keysOf]

lemma mem_keys_of_lookupP {l : List (Path × String)} {p : Path} {c : String}
    (h : lookupP l p = some c) : p ∈ keysOf l := by
  by_contra hmem
  rw [← lookupP_eq_none_iff] at hmem
  rw [h] at hmem
  exact Option.noConfusion hmem

lemma lookupP_ne_none_of_mem_keys {l : List (Path × String)} {p : Path}
    (h : p ∈ keysOf l) : lookupP l p ≠ none := by
  intro hnone
  exact (lookupP_eq_none_iff l p).mp hnone h

lemma eraseP_sublist (l : List (Path × String)) (p : Path) :
    (eraseP l p).Sublist l := by
  induction l with
  | nil => exact List.Sublist.refl _
  | cons a rest ih =>
    rw [eraseP]
    by_cases hap : a.1 = p
    · rw [if_pos hap]; exact ih.cons a
    · rw [if_neg hap]; exact ih.cons₂ a

lemma eq_nil_of_lookupP_none {l : List (Path × String)}
    (h : ∀ p, lookupP l p = none) : l = [] := by
  cases l with
  | nil => rfl
  | cons a rest =>
    have := h a.1
    rw [lookupP, if_pos rfl] at this
    exact Option.noConfusion this

/-! ## The merge master lemmas -/

/-- Specification of the inner file loop `processFiles`: with pairwise
distinct source paths all present in the staging map, the loop succeeds,
moves every file, erases exactly those staging entries, writes each staged
content at the mirrored target path, counts exactly the pre-existing
collisions, leaves the staging directory set alone, and at every
intermediate state every content of the reference map `M` is readable from
the staging or the target tree. -/
lemma processFiles_spec (d : Path) (fs : List String) (st : FsState)
    (M : List (Path × String))
    (hnd : (fs.map fun f => d ++ [f]).Nodup)
    (hkeys : ∀ f ∈ fs, lookupP st.staging (d ++ [f]) ≠ none)
    (hM : ∀ f ∈ fs, lookupP st.staging (d ++ [f]) = lookupP M (d ++ [f]))
    (hpres : ∀ p c, lookupP M p = some c →
      lookupP st.staging p = some c ∨ lookupP st.target p = some c) :
    ∃ st1 ov tr, processFiles st d fs = some (st1, fs.length, ov, tr) ∧
      (∀ p, lookupP st1.staging p =
        if p ∈ fs.map (fun f => d ++ [f]) then none else lookupP st.staging p) ∧
      st1.staging.Sublist st.staging ∧
      (∀ p, lookupP st1.target p =
        if p ∈ fs.map (fun f => d ++ [f]) then lookupP st.staging p
        else lookupP st.target p) ∧
      ov = (fs.map fun f => d ++ [f]).countP
        (fun p => (lookupP st.target p).isSome) ∧
      st1.stagingDirs = st.stagingDirs ∧
      st1.targetDirs = st.targetDirs ∧
      (∀ s ∈ tr, ∀ p c, lookupP M p = some c →
        lookupP s.staging p = some c ∨ lookupP s.target p = some c) ∧
      (∀ p c, lookupP M p = some c →
        lookupP st1.staging p = some c ∨ lookupP st1.target p = some c) := by
  induction fs generalizing st with
  | nil =>
    refine ⟨st, 0, [], rfl, ?_, List.Sublist.refl _, ?_, ?_, rfl, rfl, ?_, hpres⟩
    · intro p; simp
    · intro p; simp
    · simp
    · intro s hs; exact absurd hs (List.not_mem_nil s)
  | cons f fs ih =>
    have hf0 := hkeys f (List.mem_cons_self f fs)
    obtain ⟨c, hc⟩ : ∃ c, lookupP st.staging (d ++ [f]) = some c := by
      cases hval : lookupP st.staging (d ++ [f]) with
      | none => exact absurd hval hf0
      | some c => exact ⟨c, rfl⟩
    rw [List.map_cons, List.nodup_cons] at hnd
    have hnotmem : ¬ (d ++ [f]) ∈ fs.map fun g => d ++ [g] := hnd.1
    have hndtail : (fs.map fun g => d ++ [g]).Nodup := hnd.2
    -- the two filesystem operations of this iteration
    set stc : FsState := { st with target := insertP st.target (d ++ [f]) c }
      with hstc
    set str : FsState := { stc with staging := eraseP stc.staging (d ++ [f]) }
      with hstr
    have hmove : moveFile st (d ++ [f]) =
        some (str, (lookupP st.target (d ++ [f])).isSome, [stc, str]) := by
      rw [moveFile, hc]
    -- fields of the intermediate states
    have hcs : stc.staging = st.staging := rfl
    have hct : stc.target = insertP st.target (d ++ [f]) c := rfl
    have hrs : str.staging = eraseP st.staging (d ++ [f]) := rfl
    have hrt : str.target = insertP st.target (d ++ [f]) c := rfl
    -- hypotheses for the tail, at state `str`
    have hlook : ∀ p, lookupP str.staging p =
        if p = d ++ [f] then none else lookupP st.staging p := by
      intro p; rw [hrs, lookupP_eraseP]
    have hlookt : ∀ p, lookupP str.target p =
        if p = d ++ [f] then some c else lookupP st.target p := by
      intro p; rw [hrt, lookupP_insertP]
    have hkeys' : ∀ g ∈ fs, lookupP str.staging (d ++ [g]) ≠ none := by
      intro g hg
      have hne : ¬ (d ++ [g]) = d ++ [f] := by
        intro h
        exact hnotmem (h ▸ List.mem_map_of_mem (fun x => d ++ [x]) hg)
      rw [hlook, if_neg hne]
      exact hkeys g (List.mem_cons_of_mem f hg)
    have hM' : ∀ g ∈ fs, lookupP str.staging (d ++ [g]) = lookupP M (d ++ [g]) := by
      intro g hg
      have hne : ¬ (d ++ [g]) = d ++ [f] := by
        intro h
        exact hnotmem (h ▸ List.mem_map_of_mem (fun x => d ++ [x]) hg)
      rw [hlook, if_neg hne]
      exact hM g (List.mem_cons_of_mem f hg)
    have hMf : lookupP M (d ++ [f]) = some c :=
      (hM f (List.mem_cons_self f fs)) ▸ hc
    have hpresc : ∀ p c', lookupP M p = some c' →
        lookupP stc.staging p = some c' ∨ lookupP stc.target p = some c' := by
      intro p c' hp
      rcases hpres p c' hp with hl | hr
      · exact Or.inl (by rw [hcs]; exact hl)
      · right
        rw [hct, lookupP_insertP]
        by_cases hpf : p = d ++ [f]
        · rw [if_pos hpf]
          rw [hpf, hMf] at hp
          exact congrArg some (Option.some.inj hp).symm ▸ rfl
        · rw [if_neg hpf]; exact hr
    have hpres' : ∀ p c', lookupP M p = some c' →
        lookupP str.staging p = some c' ∨ lookupP str.target p = some c' := by
      intro p c' hp
      by_cases hpf : p = d ++ [f]
      · right
        rw [hlookt, if_pos hpf]
        rw [hpf, hMf] at hp
        exact congrArg some (Option.some.inj hp).symm ▸ rfl
      · rcases hpres p c' hp with hl | hr
        · exact Or.inl (by rw [hlook, if_neg hpf]; exact hl)
        · exact Or.inr (by rw [hlookt, if_neg hpf]; exact hr)
    obtain ⟨st1, ov, tr, hrun, hstag1, hsub1, htarg1, hov1, hsd1, htd1, htr1, hpres1⟩ :=
      ih str hndtail hkeys' hM' hpres'
    refine ⟨st1, (if (lookupP st.target (d ++ [f])).isSome then 1 else 0) + ov,
      [stc, str] ++ tr, ?_, ?_, ?_, ?_, ?_, ?_, ?_, ?_, hpres1⟩
    · simp only [processFiles, hmove, hrun, List.length_cons]
    · intro p
      rw [hstag1 p, List.map_cons]
      by_cases hpf : p = d ++ [f]
      · by_cases hmem : p ∈ fs.map fun g => d ++ [g]
        · exact absurd (hpf ▸ hmem) hnotmem
        · rw [if_neg hmem, hlook, if_pos hpf]
          rw [if_pos (List.mem_cons.mpr (Or.inl hpf))]
      · by_cases hmem : p ∈ fs.map fun g => d ++ [g]
        · simp [hmem]
        · rw [if_neg hmem, hlook, if_neg hpf]
          have : ¬ p ∈ (d ++ [f]) :: fs.map fun g => d ++ [g] := by
            intro hx
            rcases List.mem_cons.mp hx with h1 | h2
            · exact hpf h1
            · exact hmem h2
          rw [if_neg this]
    · exact hsub1.trans (by rw [hrs, hcs]; exact eraseP_sublist _ _)
    · intro p
      rw [htarg1 p, List.map_cons]
      by_cases hpf : p = d ++ [f]
      · by_cases hmem : p ∈ fs.map fun g => d ++ [g]
        · exact absurd (hpf ▸ hmem) hnotmem
        · rw [if_neg hmem, hlookt, if_pos hpf, if_pos (by simp [hpf]), hpf, hc]
      · by_cases hmem : p ∈ fs.map fun g => d ++ [g]
        · rw [if_pos hmem, if_pos (List.mem_cons_of_mem _ hmem), hlook, if_neg hpf]
        · have hnc : ¬ p ∈ (d ++ [f]) :: fs.map fun g => d ++ [g] := by
            intro hx
            rcases List.mem_cons.mp hx with h1 | h2
            · exact hpf h1
            · exact hmem h2
          rw [if_neg hmem, if_neg hnc, hlookt, if_neg hpf]
    · rw [hov1, List.map_cons, List.countP_cons]
      have hcong : (fs.map fun g => d ++ [g]).countP
          (fun p => (lookupP str.target p).isSome) =
          (fs.map fun g => d ++ [g]).countP
          (fun p => (lookupP st.target p).isSome) := by
        apply List.countP_congr
        intro p hp
        have hpf : ¬ p = d ++ [f] := fun h => hnotmem (h ▸ hp)
        rw [hlookt, if_neg hpf]
      rw [hcong]
      by_cases hex : (lookupP st.target (d ++ [f])).isSome
      · simp [hex]
        omega
      · simp [hex]
    · rw [hsd1]
    · rw [htd1]
    · intro s hs
      rcases List.mem_append.mp hs with hs1 | hs2
      · rcases List.mem_cons.mp hs1 with h1 | h1
        · exact h1 ▸ hpresc
        · rcases List.mem_cons.mp h1 with h2 | h2
          · exact h2 ▸ hpres'
          · exact absurd h2 (List.not_mem_nil s)
      · exact htr1 s hs2

lemma mkTargetDirs_staging (st : FsState) (d : Path) :
    (mkTargetDirs st d).staging = st.staging := by
  rw [mkTargetDirs]; split <;> rfl

lemma mkTargetDirs_target (st : FsState) (d : Path) :
    (mkTargetDirs st d).target = st.target := by
  rw [mkTargetDirs]; split <;> rfl

lemma mkTargetDirs_stagingDirs (st : FsState) (d : Path) :
    (mkTargetDirs st d).stagingDirs = st.stagingDirs := by
  rw [mkTargetDirs]; split <;> rfl

lemma walkFiles_cons (d : Path) (fs : List String) (rest : List (Path × List String)) :
    walkFiles ((d, fs) :: rest) = (fs.map fun f => d ++ [f]) ++ walkFiles rest := by
  rw [walkFiles, List.flatMap_cons]
  rfl

/-- Specification of the walk loop `processWalk`: with pairwise distinct
walk-reported file paths, all present in the staging map, the walk succeeds,
moves every reported file, empties exactly those staging entries, writes
each staged content at its mirrored target path, counts exactly the
pre-existing target collisions, never touches the staging directory set, and
keeps every reference content readable at each intermediate state. -/
lemma processWalk_spec (w : List (Path × List String)) (st : FsState)
    (M : List (Path × String))
    (hnd : (walkFiles w).Nodup)
    (hkeys : ∀ p ∈ walkFiles w, lookupP st.staging p ≠ none)
    (hM : ∀ p ∈ walkFiles w, lookupP st.staging p = lookupP M p)
    (hpres : ∀ p c, lookupP M p = some c →
      lookupP st.staging p = some c ∨ lookupP st.target p = some c) :
    ∃ st1 ov tr, processWalk st w = some (st1, (walkFiles w).length, ov, tr) ∧
      (∀ p, lookupP st1.staging p =
        if p ∈ walkFiles w then none else lookupP st.staging p) ∧
      st1.staging.Sublist st.staging ∧
      (∀ p, lookupP st1.target p =
        if p ∈ walkFiles w then lookupP st.staging p else lookupP st.target p) ∧
      ov = (walkFiles w).countP (fun p => (lookupP st.target p).isSome) ∧
      st1.stagingDirs = st.stagingDirs ∧
      (∀ s ∈ tr, ∀ p c, lookupP M p = some c →
        lookupP s.staging p = some c ∨ lookupP s.target p = some c) ∧
      (∀ p c, lookupP M p = some c →
        lookupP st1.staging p = some c ∨ lookupP st1.target p = some c) := by
  induction w generalizing st with
  | nil =>
    refine ⟨st, 0, [], rfl, ?_, List.Sublist.refl _, ?_, ?_, rfl, ?_, hpres⟩
    · intro p; simp [walkFiles]
    · intro p; simp [walkFiles]
    · simp [walkFiles]
    · intro s hs; exact absurd hs (List.not_mem_nil s)
  | cons a rest ih =>
    obtain ⟨d, fs⟩ := a
    rw [walkFiles_cons] at hnd hkeys hM
    have hsplit := List.nodup_append.mp hnd
    have hnd1 := hsplit.1
    have hnd2 := hsplit.2.1
    have hdisj := hsplit.2.2
    have h0s := mkTargetDirs_staging st d
    have h0t := mkTargetDirs_target st d
    have h0sd := mkTargetDirs_stagingDirs st d
    have hkeys1 : ∀ f ∈ fs, lookupP (mkTargetDirs st d).staging (d ++ [f]) ≠ none := by
      intro f hf
      rw [h0s]
      exact hkeys (d ++ [f])
        (List.mem_append.mpr (Or.inl (List.mem_map_of_mem _ hf)))
    have hM1 : ∀ f ∈ fs, lookupP (mkTargetDirs st d).staging (d ++ [f]) =
        lookupP M (d ++ [f]) := by
      intro f hf
      rw [h0s]
      exact hM (d ++ [f])
        (List.mem_append.mpr (Or.inl (List.mem_map_of_mem _ hf)))
    have hpres1 : ∀ p c, lookupP M p = some c →
        lookupP (mkTargetDirs st d).staging p = some c ∨
        lookupP (mkTargetDirs st d).target p = some c := by
      intro p c hp
      rw [h0s, h0t]
      exact hpres p c hp
    obtain ⟨stA, ovA, trA, hrunA, hstagA, hsubA, htargA, hovA, hsdA, htdA, htrA, hpresA⟩ :=
      processFiles_spec d fs (mkTargetDirs st d) M hnd1 hkeys1 hM1 hpres1
    have hkeys2 : ∀ p ∈ walkFiles rest, lookupP stA.staging p ≠ none := by
      intro p hp
      have hnp : ¬ p ∈ fs.map fun f => d ++ [f] := fun hmem => hdisj hmem hp
      rw [hstagA p, if_neg hnp, h0s]
      exact hkeys p (List.mem_append.mpr (Or.inr hp))
    have hM2 : ∀ p ∈ walkFiles rest, lookupP stA.staging p = lookupP M p := by
      intro p hp
      have hnp : ¬ p ∈ fs.map fun f => d ++ [f] := fun hmem => hdisj hmem hp
      rw [hstagA p, if_neg hnp, h0s]
      exact hM p (List.mem_append.mpr (Or.inr hp))
    obtain ⟨stB, ovB, trB, hrunB, hstagB, hsubB, htargB, hovB, hsdB, htrB, hpresB⟩ :=
      ih stA hnd2 hkeys2 hM2 hpresA
    refine ⟨stB, ovA + ovB, (mkTargetDirs st d :: trA) ++ trB, ?_, ?_, ?_, ?_, ?_, ?_, ?_, hpresB⟩
    · simp only [processWalk, hrunA, hrunB, walkFiles_cons, List.length_append,
        List.length_map]
    · intro p
      rw [hstagB p, walkFiles_cons]
      by_cases hp2 : p ∈ walkFiles rest
      · rw [if_pos hp2, if_pos (List.mem_append.mpr (Or.inr hp2))]
      · rw [if_neg hp2, hstagA p, h0s]
        by_cases hp1 : p ∈ fs.map fun f => d ++ [f]
        · rw [if_pos hp1, if_pos (List.mem_append.mpr (Or.inl hp1))]
        · rw [if_neg hp1,
            if_neg (fun hx => (List.mem_append.mp hx).elim hp1 hp2)]
    · exact hsubB.trans (h0s ▸ hsubA)
    · intro p
      rw [htargB p, walkFiles_cons]
      by_cases hp2 : p ∈ walkFiles rest
      · have hnp1 : ¬ p ∈ fs.map fun f => d ++ [f] := fun hmem => hdisj hmem hp2
        rw [if_pos hp2, if_pos (List.mem_append.mpr (Or.inr hp2)), hstagA p,
          if_neg hnp1, h0s]
      · rw [if_neg hp2, htargA p]
        by_cases hp1 : p ∈ fs.map fun f => d ++ [f]
        · rw [if_pos hp1, if_pos (List.mem_append.mpr (Or.inl hp1)), h0s]
        · rw [if_neg hp1, h0t,
            if_neg (fun hx => (List.mem_append.mp hx).elim hp1 hp2)]
    · rw [walkFiles_cons, List.countP_append, hovA, hovB, h0t]
      have hcong : (walkFiles rest).countP
          (fun p => (lookupP stA.target p).isSome) =
          (walkFiles rest).countP (fun p => (lookupP st.target p).isSome) := by
        apply List.countP_congr
        intro p hp
        have hnp1 : ¬ p ∈ fs.map fun f => d ++ [f] := fun hmem => hdisj hmem hp
        rw [htargA p, if_neg hnp1, h0t]
      rw [hcong]
    · rw [hsdB, hsdA, h0sd]
    · intro s hs
      rcases List.mem_append.mp hs with hs1 | hs2
      · rcases List.mem_cons.mp hs1 with h1 | h1
        · intro p c hp
          rw [h1, h0s, h0t]
          exact hpres p c hp
        · exact htrA s h1
      · exact htrB s hs2

lemma move_eq_of_processWalk {st : FsState} {w : List (Path × List String)}
    {st1 : FsState} {mv ov : Nat} {tr : List FsState}
    (h : processWalk st w = some (st1, mv, ov, tr)) :
    move_new_models_to_models true st w = (true, st1, mv, ov, tr) := by
  rw [move_new_models_to_models]
  simp only [h]
  rfl

/-- The hypotheses shared by the merge theorems, instantiated with
`M := st.staging`. -/
lemma processWalk_spec_self (w : List (Path × List String)) (st : FsState)
    (hnd : (walkFiles w).Nodup)
    (hperm : (keysOf st.staging).Perm (walkFiles w)) :
    ∃ st1 ov tr, processWalk st w = some (st1, (walkFiles w).length, ov, tr) ∧
      (∀ p, lookupP st1.staging p =
        if p ∈ walkFiles w then none else lookupP st.staging p) ∧
      st1.staging.Sublist st.staging ∧
      (∀ p, lookupP st1.target p =
        if p ∈ walkFiles w then lookupP st.staging p else lookupP st.target p) ∧
      ov = (walkFiles w).countP (fun p => (lookupP st.target p).isSome) ∧
      st1.stagingDirs = st.stagingDirs ∧
      (∀ s ∈ tr, ∀ p c, lookupP st.staging p = some c →
        lookupP s.staging p = some c ∨ lookupP s.target p = some c) ∧
      (∀ p c, lookupP st.staging p = some c →
        lookupP st1.staging p = some c ∨ lookupP st1.target p = some c) :=
  processWalk_spec w st st.staging hnd
    (fun _ hp => lookupP_ne_none_of_mem_keys (hperm.mem_iff.mpr hp))
    (fun _ _ => rfl)
    (fun _ _ hp => Or.inl hp)

/-- C4: on a well-formed walk of the staging tree (each staged file reported
exactly once), the merge succeeds; afterwards the staging tree holds no file
at all, every pre-merge staged content is present at the mirrored relative
path under the target root, and the staging directory set is unchanged. -/
theorem merge_moves_all_files_keeps_dirs (st : FsState)
    (w : List (Path × List String))
    (hnd : (walkFiles w).Nodup)
    (hperm : (keysOf st.staging).Perm (walkFiles w)) :
    ∃ st1 mv ov tr, move_new_models_to_models true st w = (true, st1, mv, ov, tr) ∧
      st1.staging = [] ∧
      (∀ p c, lookupP st.staging p = some c → lookupP st1.target p = some c) ∧
      st1.stagingDirs = st.stagingDirs := by
  obtain ⟨st1, ov, tr, hrun, hstag, hsub, htarg, hov, hsd, htr, hpres⟩ :=
    processWalk_spec_self w st hnd hperm
  refine ⟨st1, (walkFiles w).length, ov, tr, move_eq_of_processWalk hrun, ?_, ?_, hsd⟩
  · apply eq_nil_of_lookupP_none
    intro p
    rw [hstag p]
    by_cases hp : p ∈ walkFiles w
    · rw [if_pos hp]
    · rw [if_neg hp]
      exact (lookupP_eq_none_iff st.staging p).mpr
        (fun hk => hp (hperm.mem_iff.mp hk))
  · intro p c hc
    have hp : p ∈ walkFiles w := hperm.mem_iff.mp (mem_keys_of_lookupP hc)
    rw [htarg p, if_pos hp]
    exact hc

/-- C4 witness: two staged files, one colliding with a pre-existing target
file; after the merge the staging map is empty, the contents are at the
mirrored target paths, and the staging directory set is untouched. -/
theorem merge_moves_all_files_keeps_dirs_witness :
    ∃ st1 mv ov tr, move_new_models_to_models true
      { staging := [(["a.txt"], "A"), (["sub", "b.txt"], "B")],
        stagingDirs := [["sub"]],
        target := [(["a.txt"], "OLD")],
        targetDirs := [] }
      [([], ["a.txt"]), (["sub"], ["b.txt"])] = (true, st1, mv, ov, tr) ∧
      st1.staging = [] ∧
      (∀ p c, lookupP [(["a.txt"], "A"), (["sub", "b.txt"], "B")] p = some c →
        lookupP st1.target p = some c) ∧
      st1.stagingDirs = [["sub"]] :=
  merge_moves_all_files_keeps_dirs
    { staging := [(["a.txt"], "A"), (["sub", "b.txt"], "B")],
      stagingDirs := [["sub"]],
      target := [(["a.txt"], "OLD")],
      targetDirs := [] }
    [([], ["a.txt"]), (["sub"], ["b.txt"])]
    (by decide) (by decide)

/-- C5: on a well-formed walk, the overwritten counter of the merge ends at
exactly the number of staged paths whose mirrored target path held a
pre-existing file (one increment per collision, each staged path counted
once), and each target file's post-merge content is the staged source's
content. -/
theorem merge_overwrite_counter_exact (st : FsState)
    (w : List (Path × List String))
    (hnd : (walkFiles w).Nodup)
    (hperm : (keysOf st.staging).Perm (walkFiles w)) :
    ∃ st1 mv ov tr, move_new_models_to_models true st w = (true, st1, mv, ov, tr) ∧
      ov = (walkFiles w).countP (fun p => (lookupP st.target p).isSome) ∧
      (∀ p c, lookupP st.staging p = some c → lookupP st1.target p = some c) := by
  obtain ⟨st1, ov, tr, hrun, hstag, hsub, htarg, hov, hsd, htr, hpres⟩ :=
    processWalk_spec_self w st hnd hperm
  refine ⟨st1, (walkFiles w).length, ov, tr, move_eq_of_processWalk hrun, hov, ?_⟩
  intro p c hc
  have hp : p ∈ walkFiles w := hperm.mem_iff.mp (mem_keys_of_lookupP hc)
  rw [htarg p, if_pos hp]
  exact hc

/-- C5 witness: one of the two staged files collides with a pre-existing
target file; the counter ends at 1 and the collision is overwritten with the
staged content. -/
theorem merge_overwrite_counter_exact_witness :
    ∃ st1 mv ov tr, move_new_models_to_models true
      { staging := [(["x.txt"], "new"), (["y.txt"], "Y")],
        stagingDirs := [],
        target := [(["x.txt"], "old")],
        targetDirs := [] }
      [([], ["x.txt", "y.txt"])] = (true, st1, mv, ov, tr) ∧
      ov = (walkFiles [([], ["x.txt", "y.txt"])]).countP
        (fun p => (lookupP [(["x.txt"], "old")] p).isSome) ∧
      (∀ p c, lookupP [(["x.txt"], "new"), (["y.txt"], "Y")] p = some c →
        lookupP st1.target p = some c) :=
  merge_overwrite_counter_exact
    { staging := [(["x.txt"], "new"), (["y.txt"], "Y")],
      stagingDirs := [],
      target := [(["x.txt"], "old")],
      targetDirs := [] }
    [([], ["x.txt", "y.txt"])]
    (by decide) (by decide)

/-- C9: at every intermediate state of the merge (after each copy and after
each removal), each staged file's content is readable at its staging path or
at its mirrored target path: the copy to the target always precedes the
deletion of the source. -/
theorem merge_content_always_somewhere (st : FsState)
    (w : List (Path × List String))
    (hnd : (walkFiles w).Nodup)
    (hperm : (keysOf st.staging).Perm (walkFiles w)) :
    ∃ st1 mv ov tr, move_new_models_to_models true st w = (true, st1, mv, ov, tr) ∧
      ∀ s ∈ st :: tr, ∀ p c, lookupP st.staging p = some c →
        lookupP s.staging p = some c ∨ lookupP s.target p = some c := by
  obtain ⟨st1, ov, tr, hrun, hstag, hsub, htarg, hov, hsd, htr, hpres⟩ :=
    processWalk_spec_self w st hnd hperm
  refine ⟨st1, (walkFiles w).length, ov, tr, move_eq_of_processWalk hrun, ?_⟩
  intro s hs p c hc
  rcases List.mem_cons.mp hs with h1 | h1
  · exact Or.inl (h1 ▸ hc)
  · exact htr s h1 p c hc

/-- C9 witness: a two-file staging tree with one collision. -/
theorem merge_content_always_somewhere_witness :
    ∃ st1 mv ov tr, move_new_models_to_models true
      { staging := [(["m", "p.glb"], "P"), (["q.glb"], "Q")],
        stagingDirs := [["m"]],
        target := [(["q.glb"], "old")],
        targetDirs := [] }
      [([], ["q.glb"]), (["m"], ["p.glb"])] = (true, st1, mv, ov, tr) ∧
      ∀ s ∈ FsState.mk [(["m", "p.glb"], "P"), (["q.glb"], "Q")] [["m"]]
          [(["q.glb"], "old")] [] :: tr,
        ∀ p c, lookupP [(["m", "p.glb"], "P"), (["q.glb"], "Q")] p = some c →
          lookupP s.staging p = some c ∨ lookupP s.target p = some c :=
  merge_content_always_somewhere
    { staging := [(["m", "p.glb"], "P"), (["q.glb"], "Q")],
      stagingDirs := [["m"]],
      target := [(["q.glb"], "old")],
      targetDirs := [] }
    [([], ["q.glb"]), (["m"], ["p.glb"])]
    (by decide) (by decide)

/-! ## Lemmas on the cleanup walk -/

mutual

/-- Without concurrent writers every non-root directory is removed by the
bottom-up walk: its files are deleted, its subdirectories are already gone,
so its own `os.rmdir` succeeds. -/
lemma cleanSub_spec : ∀ t : DirTree, cleanSub t = (none, totalFiles t, 0)
  | DirTree.node files subs => by
    rw [cleanSub, cleanSubs_spec subs, totalFiles]
    rfl

/-- All sibling subdirectories are removed, their files counted. -/
lemma cleanSubs_spec : ∀ ts : List DirTree, cleanSubs ts = ([], totalSubFiles ts, 0)
  | [] => by rw [cleanSubs, totalSubFiles]
  | t :: ts => by
    rw [cleanSubs, cleanSub_spec t, cleanSubs_spec ts, totalSubFiles]
    rfl

end

/-- C8: cleanup never removes the root target directory: on any existing
directory tree it succeeds, the root still exists afterwards (only
subdirectories were removed), and the tree is recursively empty of files —
every file at any depth was removed. -/
theorem cleanup_never_removes_root (t : DirTree) :
    (cleanup_model_files (some t)).tree = some (DirTree.node [] []) ∧
    (cleanup_model_files (some t)).success = true ∧
    (cleanup_model_files (some t)).filesRemoved = totalFiles t := by
  cases t with
  | node files subs =>
    rw [cleanup_model_files, cleanSubs_spec subs, totalFiles]
    exact ⟨rfl, rfl, rfl⟩

/-- C7: when a first cleanup invocation succeeds, a second invocation on the
resulting directory removes zero files, encounters zero removal errors, and
returns true, leaving the tree as it was. -/
theorem cleanup_idempotent (t : DirTree)
    (h : (cleanup_model_files (some t)).success = true) :
    cleanup_model_files (cleanup_model_files (some t)).tree =
      { tree := (cleanup_model_files (some t)).tree, filesRemoved := 0,
        rmdirFailures := 0, success := true } := by
  cases t with
  | node files subs =>
    rw [cleanup_model_files, cleanSubs_spec subs]
    rfl

/-- C7 witness: a two-level tree with files at both levels. -/
theorem cleanup_idempotent_witness :
    (cleanup_model_files (some (DirTree.node ["f1"]
      [DirTree.node ["f2"] []]))).success = true ∧
    cleanup_model_files (cleanup_model_files (some (DirTree.node ["f1"]
        [DirTree.node ["f2"] []]))).tree =
      { tree := (cleanup_model_files (some (DirTree.node ["f1"]
          [DirTree.node ["f2"] []]))).tree,
        filesRemoved := 0, rmdirFailures := 0, success := true } :=
  ⟨rfl, cleanup_idempotent (DirTree.node ["f1"] [DirTree.node ["f2"] []]) rfl⟩

end DockerUpdate
